import Mathlib

/-!
Verification of the world state machine and command-resolution engine of a
small text-adventure program (`src/main.rs`).

The embedding is shallow and follows the source closely:

* `RoomId`, `Dir`, `Lock`, `Exit`, `Room`, `World` mirror the Rust types.
* The `HashMap<RoomId, Room>` is embedded as a function `RoomId → Option Room`;
  `get_mut` followed by mutation becomes a pointwise function update
  (`updateRoom`).  The key set never changes after `create_rooms`.
* `ObjectList` is embedded as `List String`; `Vec::swap_remove` on the first
  matching index is modelled exactly (the last element takes the removed
  slot), via the list reversal in `ObjectList.remove`.
* Every verb handler returns `Option (World × List String)`: the `World` is
  the post-state, the list collects the `println!` lines of the turn, and
  `none` models a panic (a failing `unwrap` on the room map, or the failing
  `assert!` after movement in `cmd_go`).
* Rust's Unicode-aware `char::to_lowercase`/`char::is_whitespace` are
  approximated by Lean's `Char.toLower`/`Char.isWhitespace`; on the ASCII
  commands of the game they agree.
-/

inductive RoomId where
  | NONE      -- only used as result of next_room
  | Mountain
  | Forest
  | Lake
  | Outside   -- of the castle
  | Castle    -- inside it
  | Treasury
deriving DecidableEq

inductive Dir where
  | N | S | E | W | U | D
deriving DecidableEq

inductive Lock where
  | NONE      -- travel is not possible at all
  | Free      -- travel is possible and has no obstacle
  | Key       -- a key is required
  | Crocodile -- a monster is blocking the path
  | Password  -- a password is needed
deriving DecidableEq

structure Exit where
  dir : Dir
  dest : RoomId
  lock : Lock

/-- Lock of the first exit in the given direction (`Room::can_travel` loop). -/
def lockFor (d : Dir) : List Exit → Lock
  | [] => Lock.NONE
  | e :: es => if e.dir = d then e.lock else lockFor d es

/-- Destination of the first exit in the given direction (`Room::next_room` loop). -/
def destFor (d : Dir) : List Exit → RoomId
  | [] => RoomId.NONE
  | e :: es => if e.dir = d then e.dest else destFor d es

/-- Count of occurrences of a name in an object list. -/
def cnt (n : String) : List String → Nat
  | [] => 0
  | x :: xs => (if x = n then 1 else 0) + cnt n xs

/-- `ObjectList::add`: push the name at the end of the vector. -/
def ObjectList.add (v : List String) (name : String) : List String :=
  v ++ [name]

/-- `ObjectList::has`: linear scan for the name. -/
def ObjectList.has : List String → String → Bool
  | [], _ => false
  | x :: xs, name => if x = name then true else ObjectList.has xs name

/-- `ObjectList::remove`: find the first index holding the name and
`swap_remove` it (the last element of the vector takes its slot); returns
whether the name was found together with the updated vector. -/
def ObjectList.remove : List String → String → Bool × List String
  | [], _ => (false, [])
  | x :: xs, name =>
    if x = name then
      match xs.reverse with
      | [] => (true, [])
      | last :: restRev => (true, last :: restRev.reverse)
    else
      let r := ObjectList.remove xs name
      (r.1, x :: r.2)

structure Room where
  description : String
  exits : List Exit
  objects : List String

def Room.can_travel (room : Room) (d : Dir) : Lock :=
  lockFor d room.exits

def Room.next_room (room : Room) (d : Dir) : RoomId :=
  destFor d room.exits

/-- `Room::free_exit`: set the lock of every exit in the given direction to `Free`. -/
def Room.free_exit (room : Room) (d : Dir) : Room :=
  { room with exits := room.exits.map (fun e => if e.dir = d then { e with lock := Lock.Free } else e) }

structure World where
  game_over : Bool
  rooms : RoomId → Option Room
  location : RoomId
  inventory : List String
  found_key : Bool

/-- The fixed room data built by `World::create_rooms`. -/
def create_rooms : RoomId → Option Room
  | RoomId.NONE => none
  | RoomId.Mountain => some
      { description := "You are standing on a large grassy mountain.\nTo the north you see a thick forest.\nOther directions are blocked by steep cliffs."
        exits := [⟨Dir.N, RoomId.Forest, Lock.Free⟩]
        objects := [] }
  | RoomId.Forest => some
      { description := "You are in a forest, surrounded by dense trees and shrubs.\nA wide path slopes gently upwards to the south, and\nnarrow paths lead east and west."
        exits := [⟨Dir.S, RoomId.Mountain, Lock.Free⟩,
                  ⟨Dir.W, RoomId.Lake, Lock.Free⟩,
                  ⟨Dir.E, RoomId.Outside, Lock.Crocodile⟩]
        objects := ["crocodile", "parrot"] }
  | RoomId.Lake => some
      { description := "You stand on the shore of a beautiful lake, soft sand under\nyour feet.  The clear water looks warm and inviting."
        exits := [⟨Dir.E, RoomId.Forest, Lock.Free⟩]
        objects := ["steak"] }
  | RoomId.Outside => some
      { description := "The forest is thinning off here.  To the east you can see a\nlarge castle made of dark brown stone.  A narrow path leads\nback into the forest to the west."
        exits := [⟨Dir.W, RoomId.Forest, Lock.Free⟩,
                  ⟨Dir.E, RoomId.Castle, Lock.Key⟩]
        objects := [] }
  | RoomId.Castle => some
      { description := "You are standing inside a magnificant, opulent castle.\nA staircase leads to the upper levels, but unfortunately\nit is currently blocked off by rusty delivery crates.\nA large wooden door leads outside to the west, and a small\ndoor leads south."
        exits := [⟨Dir.W, RoomId.Outside, Lock.Free⟩,
                  ⟨Dir.S, RoomId.Treasury, Lock.Password⟩]
        objects := ["guard", "carrot"] }
  | RoomId.Treasury => some
      { description := "Wow!  This room is full of valuable treasures.  Gold, jewels,\nvaluable antiques sit on sturdy shelves against the walls.\nHowever...... perhaps money isn't everything??"
        exits := [⟨Dir.N, RoomId.Castle, Lock.Free⟩]
        objects := ["treasure"] }

def World.new : World :=
  { game_over := false
    rooms := create_rooms
    location := RoomId.Mountain
    inventory := ["sword"]
    found_key := false }

/-- Pointwise update of the room map, embedding mutation through `get_mut`. -/
def updateRoom (rooms : RoomId → Option Room) (loc : RoomId) (room : Room) : RoomId → Option Room :=
  fun r => if r = loc then some room else rooms r

/-- `World::describe_room`: static text plus one line per object present;
`none` models the failing `unwrap` when the location is not in the map. -/
def World.describe_room (w : World) : Option (List String) :=
  match w.rooms w.location with
  | none => none
  | some room => some (room.description :: room.objects.map (fun ob => s!"There is a {ob} here."))

def quit_msg : List String := ["Goodbye!"]

def solved_msg : List String :=
  ["",
   "With your good health and new-found wealth, you live",
   "happily ever after (well... about 50 years or so).",
   "",
   "Congratulations, you solved the game!"]

/-! ## Lexical normalizer (`sanitize_word`, `sanitize_list`, `parse_input`) -/

inductive Parse where
  | Empty
  | Words (ws : List String)
deriving DecidableEq

def unwrap_str : Option String → String
  | some s => s
  | none => ""

/-- Char-wise lowercasing of a string, embedding the `to_lowercase` loop of
`sanitize_word`. -/
def lowerStr (word : String) : String :=
  String.mk (word.data.map Char.toLower)

/-- `sanitize_word`: lowercase, drop filler words, expand abbreviations. -/
def sanitize_word (word : String) : String :=
  let s := lowerStr word
  if s = "a" ∨ s = "an" ∨ s = "the" ∨ s = "to" ∨ s = "with" then ""
  else if s = "croc" then "crocodile"
  else s

/-- `sanitize_list`: sanitize each word, keeping the non-empty results in order. -/
def sanitize_list : List String → List String
  | [] => []
  | w :: ws =>
    let s := sanitize_word w
    if s = "" then sanitize_list ws else s :: sanitize_list ws

/-- Helper for `splitWhitespace`: walks the characters, accumulating the
current word and flushing it at every whitespace character. -/
def splitWsAux : List Char → List Char → List String
  | [], acc => if acc.isEmpty then [] else [String.mk acc]
  | c :: cs, acc =>
    if c.isWhitespace then
      if acc.isEmpty then splitWsAux cs []
      else String.mk acc :: splitWsAux cs []
    else splitWsAux cs (acc ++ [c])

/-- Splitting a string into maximal runs of non-whitespace characters,
embedding `str::split_whitespace`. -/
def splitWhitespace (input : String) : List String :=
  splitWsAux input.data []

/-- `parse_input`: empty marker on whitespace-only lines, sanitized words otherwise. -/
def parse_input (input : String) : Parse :=
  let words := splitWhitespace input
  if words.isEmpty then Parse.Empty
  else Parse.Words (sanitize_list words)

def PASSWORD : String := "piehole"

/-! ## Verb handlers -/

def World.cmd_help (w : World) : Option (World × List String) :=
  some (w, ["Use text commands to walk around and do things.",
            "Some examples:",
            "    go north",
            "    get the rope",
            "    drop the lantern",
            "    inventory",
            "    unlock door",
            "    kill the serpent",
            "    quit"])

def World.cmd_quit (w : World) : Option (World × List String) :=
  some ({ w with game_over := true }, quit_msg)

def World.cmd_invent (w : World) : Option (World × List String) :=
  some (w, "You are carrying:" ::
    (if w.inventory.isEmpty then ["    nothing."]
     else w.inventory.map (fun ob => s!"    a {ob}.")))

def World.cmd_look (w : World) : Option (World × List String) :=
  match w.describe_room with
  | none => none
  | some desc => some (w, "" :: desc)

/-- Direction-word resolution inlined at the top of `cmd_go`. -/
def dirOfNoun (noun : String) : Option Dir :=
  if noun = "n" ∨ noun = "north" then some Dir.N
  else if noun = "s" ∨ noun = "south" then some Dir.S
  else if noun = "e" ∨ noun = "east" then some Dir.E
  else if noun = "w" ∨ noun = "west" then some Dir.W
  else if noun = "u" ∨ noun = "up" then some Dir.U
  else if noun = "d" ∨ noun = "down" then some Dir.D
  else none

/-- Narrative printed by `cmd_go` for each blocking obstruction value. -/
def lockNarrative : Lock → List String
  | Lock.NONE => ["You cannot go that way."]
  | Lock.Free => []
  | Lock.Key => ["The castle door is locked!"]
  | Lock.Crocodile => ["A huge, scary crocodile blocks your path!"]
  | Lock.Password => ["The guard stops you and says \"Hey, you cannot go in there",
                      "unless you tell me the password!\"."]

def World.cmd_go (w : World) (noun1 : String) : Option (World × List String) :=
  if noun1 = "" then some (w, ["Go where??"])
  else
    match dirOfNoun noun1 with
    | none => some (w, ["I don't understand that direction."])
    | some dir =>
      match w.rooms w.location with
      | none => none
      | some room =>
        match room.can_travel dir with
        | Lock.Free =>
          let newLoc := room.next_room dir
          -- `assert!(self.location != RoomId::NONE)`
          if newLoc = RoomId.NONE then none
          else
            let w2 := { w with location := newLoc }
            match w2.describe_room with
            | none => none
            | some desc => some (w2, "" :: desc)
        | obst => some (w, lockNarrative obst)

def World.cmd_drop (w : World) (noun1 : String) : Option (World × List String) :=
  if noun1 = "" then some (w, ["Drop what??"])
  else
    match ObjectList.remove w.inventory noun1 with
    | (false, _) => some (w, [s!"You are not carrying a {noun1}."])
    | (true, inv2) =>
      match w.rooms w.location with
      | none => none
      | some room =>
        some ({ w with inventory := inv2,
                       rooms := updateRoom w.rooms w.location { room with objects := ObjectList.add room.objects noun1 } },
              [s!"You drop the {noun1}."])

def World.cmd_get (w : World) (noun1 : String) : Option (World × List String) :=
  if noun1 = "" then some (w, ["Get what??"])
  else if noun1 = "crocodile" then
    some (w, ["Are you serious?  The only thing you would get is eaten!"])
  else if noun1 = "parrot" then
    some (w, ["The parrot nimbly evades your grasp."])
  else if noun1 = "guard" then
    some (w, ["A momentary blush suggests the guard was flattered."])
  else
    match w.rooms w.location with
    | none => none
    | some room =>
      match ObjectList.remove room.objects noun1 with
      | (false, _) => some (w, [s!"There is no {noun1} here you can take."])
      | (true, objs2) =>
        let w2 := { w with rooms := updateRoom w.rooms w.location { room with objects := objs2 },
                           inventory := ObjectList.add w.inventory noun1 }
        if noun1 = "treasure" then
          some ({ w2 with game_over := true }, s!"You pick up the {noun1}." :: solved_msg)
        else
          some (w2, [s!"You pick up the {noun1}."])

def World.cmd_give (w : World) (noun1 noun2 : String) : Option (World × List String) :=
  if noun1 = "" ∨ noun2 = "" then some (w, ["Give what to whom??"])
  else if ObjectList.has w.inventory noun1 = false then
    some (w, [s!"You can't give a {noun1}, as you don't have one!"])
  else
    match w.rooms w.location with
    | none => none
    | some room =>
      if ObjectList.has room.objects noun2 = false then
        some (w, [s!"There is no {noun2} here."])
      else if noun1 = "carrot" ∧ noun2 = "parrot" then
        some ({ w with inventory := (ObjectList.remove w.inventory noun1).2 },
          ["The parrot happily starts chewing on the carrot.  Every now",
           s!"and then you hear it say \"{PASSWORD}\" as it munches away.",
           "I wonder who this parrot belonged to??"])
      else if noun1 = "steak" ∧ noun2 = "crocodile" then
        some ({ w with inventory := (ObjectList.remove w.inventory noun1).2,
                       rooms := updateRoom w.rooms w.location
                         (Room.free_exit { room with objects := (ObjectList.remove room.objects "crocodile").2 } Dir.E) },
          ["You hurl the steak towards the crocodile, which suddenly",
           "snaps into action, grabbing the steak in its steely jaws",
           "and slithering off to devour its meal in private."])
      else
        some (w, ["Don't be ridiculous!"])

def World.cmd_feed (w : World) (noun1 noun2 : String) : Option (World × List String) :=
  if noun1 = "" ∨ noun2 = "" then some (w, ["Feed what to whom??"])
  else w.cmd_give noun1 noun2

def World.cmd_attack (w : World) (noun1 : String) : Option (World × List String) :=
  if noun1 = "" then some (w, ["Attack what??"])
  else
    let have_sword := ObjectList.has w.inventory "sword"
    if noun1 = "crocodile" then
      some (w, ["The mere thought of wrestling with that savage beast",
                "paralyses you with fear!"])
    else if noun1 = "guard" then
      if have_sword then
        some (w, ["You and the guard begin a dangerous sword fight!",
                  "But after ten minutes or so, you are both exhausted and",
                  "decide to call it a draw."])
      else
        some (w, ["You raise your hands to fight, then notice that the guard",
                  "is carrying a sword, so you shadow box for a while instead."])
    else if have_sword then
      some (w, ["You swing your sword, but miss!"])
    else
      some (w, ["You bruise your hand in the attempt."])

def World.cmd_open (w : World) (noun1 : String) : Option (World × List String) :=
  if noun1 = "" then some (w, ["Open what??"])
  else if noun1 = "door" ∧ w.location = RoomId.Outside then
    if ObjectList.has w.inventory "key" = false then
      some (w, ["You don't have a key!"])
    else
      match w.rooms w.location with
      | none => none
      | some room =>
        some ({ w with inventory := (ObjectList.remove w.inventory "key").2,
                       rooms := updateRoom w.rooms w.location (room.free_exit Dir.E) },
          ["Carefully you insert the rusty old key in the lock, and turn it.",
           "Yes!!  The door unlocks!  However the key breaks into several",
           "pieces and is useless now."])
  else
    some (w, ["You cannot open that!"])

def World.cmd_swim (w : World) : Option (World × List String) :=
  match w.location with
  | RoomId.Lake =>
    if w.found_key then
      some (w, ["You enjoy a nice swim in the lake."])
    else
      some ({ w with found_key := true, inventory := ObjectList.add w.inventory "key" },
        ["You dive into the lake, enjoy paddling around for a while.",
         "Diving a bit deeper, you discover a rusty old key!"])
  | RoomId.Outside => some (w, ["But the moat is full of crocodiles!"])
  | _ => some (w, ["There is nowhere to swim here."])

def World.cmd_say (w : World) (noun1 : String) : Option (World × List String) :=
  if noun1 = "" then some (w, ["Say what??"])
  else if noun1 = PASSWORD ∧ w.location = RoomId.Castle then
    match w.rooms w.location with
    | none => none
    | some room =>
      some ({ w with rooms := updateRoom w.rooms w.location (room.free_exit Dir.S) },
        ["The guard says \"Welcome Sire!\" and beckons you to enter",
         "the treasury."])
  else
    some (w, [s!"You say \"{noun1}\" but nothing happens."])

def World.cmd_use (w : World) (noun1 : String) : Option (World × List String) :=
  if noun1 = "" then some (w, ["Use what??"])
  else if ObjectList.has w.inventory noun1 = false then
    some (w, [s!"You don't have any {noun1} to use."])
  else if noun1 = "key" then
    w.cmd_open "door"
  else
    some (w, [s!"You fiddle with your {noun1}, but nothing happens."])

/-- The verb dispatch of `World::parse_command`.  The Rust `match` over
string literals is embedded as the equivalent first-match chain of equality
tests, in source order. -/
def World.dispatch (w : World) (cmd noun1 noun2 : String) : Option (World × List String) :=
  if cmd = "help" then w.cmd_help
    else if cmd = "exit" ∨ cmd = "quit" ∨ cmd = "q" then w.cmd_quit
    else if cmd = "i" ∨ cmd = "inv" ∨ cmd = "invent" ∨ cmd = "inventory" then w.cmd_invent
    else if cmd = "look" ∨ cmd = "l" then w.cmd_look
    else if cmd = "go" ∨ cmd = "walk" then w.cmd_go noun1
    else if cmd = "n" ∨ cmd = "north" ∨ cmd = "s" ∨ cmd = "south" ∨
            cmd = "e" ∨ cmd = "east" ∨ cmd = "w" ∨ cmd = "west" ∨
            cmd = "d" ∨ cmd = "down" ∨ cmd = "u" ∨ cmd = "up" then w.cmd_go cmd
    else if cmd = "drop" then w.cmd_drop noun1
    else if cmd = "get" ∨ cmd = "take" then w.cmd_get noun1
    else if cmd = "give" ∨ cmd = "offer" then w.cmd_give noun1 noun2
    else if cmd = "feed" then w.cmd_feed noun1 noun2
    else if cmd = "kill" ∨ cmd = "attack" ∨ cmd = "hit" ∨ cmd = "fight" then w.cmd_attack noun1
    else if cmd = "open" ∨ cmd = "unlock" then w.cmd_open noun1
    else if cmd = "swim" ∨ cmd = "dive" then w.cmd_swim
    else if cmd = "say" ∨ cmd = "speak" ∨ cmd = "tell" then w.cmd_say noun1
    else if cmd = PASSWORD then w.cmd_say PASSWORD
    else if cmd = "use" ∨ cmd = "apply" then w.cmd_use noun1
    else some (w, [s!"I don't understand '{cmd}'"])

/-- `World::parse_command`: extract the command word and up to two nouns
(missing words become `""` through `unwrap_str`) and dispatch. -/
def World.parse_command (w : World) (words : List String) : Option (World × List String) :=
  if unwrap_str words[0]? = "" then some (w, ["Huh??"])
  else w.dispatch (unwrap_str words[0]?) (unwrap_str words[1]?) (unwrap_str words[2]?)

/-! ## Runs and reachability -/

/-- One turn at the word-list level: the post-state of `parse_command`. -/
def World.step (w : World) (words : List String) : Option World :=
  match w.parse_command words with
  | none => none
  | some p => some p.1

/-- A run of successive turns. -/
def World.run (w : World) : List (List String) → Option World
  | [] => some w
  | ws :: rest =>
    match w.step ws with
    | none => none
    | some w2 => w2.run rest

/-- States reachable from the initial world by some command sequence. -/
def Reachable (w : World) : Prop :=
  ∃ cmds, World.run World.new cmds = some w

/-- The obstruction query of the spec: `can_travel` of the room at `r`, if any. -/
def World.obstruction (w : World) (r : RoomId) (d : Dir) : Option Lock :=
  match w.rooms r with
  | none => none
  | some room => some (room.can_travel d)

/-! ## Object accounting -/

def optCount (n : String) : Option Room → Nat
  | none => 0
  | some room => cnt n room.objects

def optSize : Option Room → Nat
  | none => 0
  | some room => room.objects.length

/-- Occurrences of a name summed over the six real rooms' object sets. -/
def roomSum (rooms : RoomId → Option Room) (n : String) : Nat :=
  optCount n (rooms RoomId.Mountain) + optCount n (rooms RoomId.Forest) +
  optCount n (rooms RoomId.Lake) + optCount n (rooms RoomId.Outside) +
  optCount n (rooms RoomId.Castle) + optCount n (rooms RoomId.Treasury)

/-- Object-set sizes summed over the six real rooms. -/
def roomSizes (rooms : RoomId → Option Room) : Nat :=
  optSize (rooms RoomId.Mountain) + optSize (rooms RoomId.Forest) +
  optSize (rooms RoomId.Lake) + optSize (rooms RoomId.Outside) +
  optSize (rooms RoomId.Castle) + optSize (rooms RoomId.Treasury)

/-- Occurrences of a name in the inventory and all rooms together. -/
def totalCount (w : World) (n : String) : Nat :=
  cnt n w.inventory + roomSum w.rooms n

/-- Total number of objects held in the inventory and all rooms together. -/
def totalSize (w : World) : Nat :=
  w.inventory.length + roomSizes w.rooms

/-! ## Claim-side definitions and concrete worlds used by witnesses -/

/-- The filler words dropped by the normalizer, as the spec lists them. -/
def fillerWords : List String := ["a", "an", "the", "to", "with"]

/-- Claim-side description of the lexical normalizer: split on whitespace
runs, lowercase each token, drop the filler words, expand "croc" to
"crocodile", preserving the relative order of the remaining tokens. -/
def normalizeSpec (input : String) : Parse :=
  if splitWhitespace input = [] then Parse.Empty
  else Parse.Words
    ((((splitWhitespace input).map lowerStr).filter (fun t => decide (t ∉ fillerWords))).map
      (fun t => if t = "croc" then "crocodile" else t))

/-- The initial world moved to the treasury (reachable; used as a witness input). -/
def wTreasury : World := { World.new with location := RoomId.Treasury }

/-- The initial world moved outside the castle. -/
def wOutside : World := { World.new with location := RoomId.Outside }

/-- The initial world outside the castle, carrying only the key. -/
def wOutsideKey : World := { World.new with location := RoomId.Outside, inventory := ["key"] }

/-- The initial world inside the castle. -/
def wCastle : World := { World.new with location := RoomId.Castle }

/-- The initial world in the forest, carrying only the carrot. -/
def wForestCarrot : World := { World.new with location := RoomId.Forest, inventory := ["carrot"] }

/-! ## Lemmas about object lists -/

theorem cnt_append (n : String) (a b : List String) : cnt n (a ++ b) = cnt n a + cnt n b := by
  induction a with
  | nil => simp [cnt]
  | cons x xs ih =>
    simp only [List.cons_append, cnt, List.append_eq]
    rw [ih]
    omega

theorem cnt_singleton (n x : String) : cnt n [x] = if x = n then 1 else 0 := by
  simp [cnt]

theorem cnt_reverse (n : String) (l : List String) : cnt n l.reverse = cnt n l := by
  induction l with
  | nil => rfl
  | cons x xs ih => simp only [List.reverse_cons, cnt_append, cnt, cnt_singleton, ih]; omega

theorem remove_fst_eq_has : ∀ (v : List String) (n : String),
    (ObjectList.remove v n).1 = ObjectList.has v n := by
  intro v
  induction v with
  | nil => intro n; rfl
  | cons x xs ih =>
    intro n
    by_cases h : x = n
    · subst h
      simp only [ObjectList.remove, ObjectList.has, if_pos rfl]
      rcases xs.reverse with _ | ⟨last, restRev⟩ <;> rfl
    · simp only [ObjectList.remove, ObjectList.has, if_neg h]
      exact ih n

theorem has_iff_cnt_pos : ∀ (v : List String) (n : String),
    ObjectList.has v n = true ↔ 0 < cnt n v := by
  intro v
  induction v with
  | nil => intro n; simp [ObjectList.has, cnt]
  | cons x xs ih =>
    intro n
    by_cases h : x = n
    · subst h; simp [ObjectList.has, cnt]
    · simp [ObjectList.has, cnt, h, ih]

theorem has_false_cnt : ObjectList.has v n = false → cnt n v = 0 := by
  intro h
  by_contra hne
  have : ObjectList.has v n = true := (has_iff_cnt_pos v n).mpr (Nat.pos_of_ne_zero hne)
  rw [h] at this
  exact Bool.false_ne_true this

theorem remove_snd_of_not_has : ∀ (v : List String) (n : String),
    ObjectList.has v n = false → (ObjectList.remove v n).2 = v := by
  intro v
  induction v with
  | nil => intro n _; rfl
  | cons x xs ih =>
    intro n h
    by_cases hx : x = n
    · subst hx; simp [ObjectList.has] at h
    · simp only [ObjectList.has, if_neg hx] at h
      simp only [ObjectList.remove, if_neg hx]
      rw [ih n h]

theorem remove_cons_self (a : String) (as : List String) :
    ObjectList.remove (a :: as) a =
      (true, match as.reverse with
             | [] => []
             | last :: restRev => last :: restRev.reverse) := by
  cases h : as.reverse <;> simp [ObjectList.remove, h]

theorem remove_cons_ne (a : String) (as : List String) (n : String) (h : a ≠ n) :
    ObjectList.remove (a :: as) n = ((ObjectList.remove as n).1, a :: (ObjectList.remove as n).2) := by
  simp [ObjectList.remove, h]

theorem remove_true_cnt : ∀ (v : List String) (n : String) (v2 : List String),
    ObjectList.remove v n = (true, v2) → ∀ x, cnt x v2 + (if n = x then 1 else 0) = cnt x v := by
  intro v
  induction v with
  | nil => intro n v2 h; simp [ObjectList.remove] at h
  | cons a as ih =>
    intro n v2 h x
    by_cases ha : a = n
    · subst ha
      rw [remove_cons_self] at h
      simp only [Prod.mk.injEq, true_and] at h
      subst h
      rcases hrev : as.reverse with _ | ⟨last, restRev⟩
      · have has : as = [] := by
          have := congrArg List.reverse hrev
          simpa using this
        subst has
        simp [cnt]
      · have hcnt : cnt x (last :: restRev) = cnt x as := by
          rw [← hrev]
          exact cnt_reverse x as
        simp only [cnt, cnt_reverse] at hcnt
        simp only [hrev, cnt, cnt_reverse]
        omega
    · rw [remove_cons_ne a as n ha] at h
      rcases hr : ObjectList.remove as n with ⟨b, rest⟩
      rw [hr] at h
      simp only [Prod.mk.injEq] at h
      obtain ⟨hb, hv2⟩ := h
      subst hb
      have := ih n rest hr x
      rw [← hv2]
      simp only [cnt]
      omega

theorem remove_true_len : ∀ (v : List String) (n : String) (v2 : List String),
    ObjectList.remove v n = (true, v2) → v2.length + 1 = v.length := by
  intro v
  induction v with
  | nil => intro n v2 h; simp [ObjectList.remove] at h
  | cons a as ih =>
    intro n v2 h
    by_cases ha : a = n
    · subst ha
      rw [remove_cons_self] at h
      simp only [Prod.mk.injEq, true_and] at h
      subst h
      rcases hrev : as.reverse with _ | ⟨last, restRev⟩
      · have has : as = [] := by
          have := congrArg List.reverse hrev
          simpa using this
        subst has
        rfl
      · have hlen : as.length = restRev.length + 1 := by
          have := congrArg List.length hrev
          simpa using this
        simp [hrev, hlen]
    · rw [remove_cons_ne a as n ha] at h
      rcases hr : ObjectList.remove as n with ⟨b, rest⟩
      rw [hr] at h
      simp only [Prod.mk.injEq] at h
      obtain ⟨hb, hv2⟩ := h
      subst hb
      have := ih n rest hr
      rw [← hv2]
      simp only [List.length_cons]
      omega

theorem remove_false_snd : (ObjectList.remove v n).1 = false → (ObjectList.remove v n).2 = v := by
  intro h
  rw [remove_fst_eq_has] at h
  exact remove_snd_of_not_has v n h

theorem remove_cnt_le (v : List String) (n x : String) :
    cnt x (ObjectList.remove v n).2 ≤ cnt x v := by
  rcases hr : ObjectList.remove v n with ⟨b, v2⟩
  cases b
  · have h2 : (ObjectList.remove v n).2 = v := remove_false_snd (by rw [hr])
    rw [hr] at h2
    simp only at h2
    simp [h2]
  · have := remove_true_cnt v n v2 hr x
    simp only
    omega

theorem remove_len_le (v : List String) (n : String) :
    (ObjectList.remove v n).2.length ≤ v.length := by
  rcases hr : ObjectList.remove v n with ⟨b, v2⟩
  cases b
  · have h2 : (ObjectList.remove v n).2 = v := remove_false_snd (by rw [hr])
    rw [hr] at h2
    simp only at h2
    simp [h2]
  · have := remove_true_len v n v2 hr
    simp only
    omega

theorem remove_true_of_has (v : List String) (n : String) (h : ObjectList.has v n = true) :
    ∃ v2, ObjectList.remove v n = (true, v2) := by
  rcases hr : ObjectList.remove v n with ⟨b, v2⟩
  cases b
  · have hfst := remove_fst_eq_has v n
    rw [hr, h] at hfst
    simp at hfst
  · exact ⟨v2, rfl⟩

theorem has_add_self (v : List String) (n : String) : ObjectList.has (ObjectList.add v n) n = true := by
  rw [has_iff_cnt_pos, ObjectList.add, cnt_append, cnt_singleton]
  simp

/-! ## Lemmas about exits and locks -/

theorem lockFor_map_free_ne (d d2 : Dir) (es : List Exit) (h : d ≠ d2) :
    lockFor d (es.map (fun e => if e.dir = d2 then { e with lock := Lock.Free } else e)) = lockFor d es := by
  induction es with
  | nil => rfl
  | cons e es ih =>
    have h4 : d2 ≠ d := Ne.symm h
    by_cases h2 : e.dir = d2
    · have h3 : ¬ e.dir = d := fun hc => h (hc.symm.trans h2)
      simp [lockFor, h2, h3, h, h4, ih]
    · by_cases h3 : e.dir = d
      · simp [lockFor, h2, h3, h, h4]
      · simp [lockFor, h2, h3, ih]

theorem lockFor_map_free_self (d : Dir) (es : List Exit) (h : lockFor d es ≠ Lock.NONE) :
    lockFor d (es.map (fun e => if e.dir = d then { e with lock := Lock.Free } else e)) = Lock.Free := by
  induction es with
  | nil => exact absurd rfl h
  | cons e es ih =>
    by_cases h2 : e.dir = d
    · simp [lockFor, h2]
    · simp only [lockFor, if_neg h2] at h
      simp [lockFor, h2, ih h]

theorem can_travel_free_exit_free (room : Room) (d d2 : Dir) (h : room.can_travel d = Lock.Free) :
    (room.free_exit d2).can_travel d = Lock.Free := by
  by_cases hd : d = d2
  · subst hd
    unfold Room.can_travel Room.free_exit at *
    exact lockFor_map_free_self d room.exits (by rw [h]; intro hc; cases hc)
  · unfold Room.can_travel Room.free_exit at *
    rw [lockFor_map_free_ne d d2 room.exits hd]
    exact h

theorem can_travel_free_exit_self (room : Room) (d : Dir) (h : room.can_travel d ≠ Lock.NONE) :
    (room.free_exit d).can_travel d = Lock.Free := by
  unfold Room.can_travel Room.free_exit at *
  exact lockFor_map_free_self d room.exits h

theorem destFor_ne_none (d : Dir) (es : List Exit)
    (hd : ∀ e ∈ es, e.dest ≠ RoomId.NONE) (h : lockFor d es = Lock.Free) :
    destFor d es ≠ RoomId.NONE := by
  induction es with
  | nil => simp [lockFor] at h
  | cons e es ih =>
    by_cases h2 : e.dir = d
    · simp only [destFor, if_pos h2]
      exact hd e (List.mem_cons_self e es)
    · simp only [destFor, if_neg h2]
      simp only [lockFor, if_neg h2] at h
      exact ih (fun e2 he2 => hd e2 (List.mem_cons_of_mem e he2)) h

theorem next_room_ne_none (room : Room) (d : Dir)
    (hd : ∀ e ∈ room.exits, e.dest ≠ RoomId.NONE) (h : room.can_travel d = Lock.Free) :
    room.next_room d ≠ RoomId.NONE :=
  destFor_ne_none d room.exits hd h

theorem dests_free_exit (room : Room) (d : Dir)
    (hd : ∀ e ∈ room.exits, e.dest ≠ RoomId.NONE) :
    ∀ e ∈ (room.free_exit d).exits, e.dest ≠ RoomId.NONE := by
  intro e he
  simp only [Room.free_exit, List.mem_map] at he
  obtain ⟨e0, he0, rfl⟩ := he
  by_cases h2 : e0.dir = d <;> simp [h2] <;> exact hd e0 he0

/-! ## Lemmas about the room map and object accounting -/

theorem updateRoom_self (rooms : RoomId → Option Room) (loc : RoomId) (room : Room) :
    updateRoom rooms loc room loc = some room := by
  simp [updateRoom]

theorem updateRoom_ne (rooms : RoomId → Option Room) (loc : RoomId) (room : Room)
    (r : RoomId) (h : r ≠ loc) : updateRoom rooms loc room r = rooms r := by
  simp [updateRoom, h]

theorem rooms_some_update (rooms : RoomId → Option Room) (loc : RoomId) (room2 : Room)
    (h : ∀ r, r ≠ RoomId.NONE → (rooms r).isSome = true) :
    ∀ r, r ≠ RoomId.NONE → ((updateRoom rooms loc room2) r).isSome = true := by
  intro r hr
  by_cases hrl : r = loc
  · subst hrl; simp [updateRoom]
  · rw [updateRoom_ne rooms loc room2 r hrl]; exact h r hr

theorem dests_update (rooms : RoomId → Option Room) (loc : RoomId) (room2 : Room)
    (h : ∀ r room, rooms r = some room → ∀ e ∈ room.exits, e.dest ≠ RoomId.NONE)
    (h2 : ∀ e ∈ room2.exits, e.dest ≠ RoomId.NONE) :
    ∀ r room, (updateRoom rooms loc room2) r = some room → ∀ e ∈ room.exits, e.dest ≠ RoomId.NONE := by
  intro r room hr
  by_cases hrl : r = loc
  · subst hrl
    rw [updateRoom_self] at hr
    cases hr
    exact h2
  · rw [updateRoom_ne rooms loc room2 r hrl] at hr
    exact h r room hr

theorem roomSum_update (rooms : RoomId → Option Room) (loc : RoomId)
    (hloc : loc ≠ RoomId.NONE) (room room2 : Room) (hr : rooms loc = some room) (n : String) :
    roomSum (updateRoom rooms loc room2) n + cnt n room.objects
      = roomSum rooms n + cnt n room2.objects := by
  cases loc with
  | NONE => exact absurd rfl hloc
  | Mountain => simp [roomSum, updateRoom, optCount, hr]; omega
  | Forest => simp [roomSum, updateRoom, optCount, hr]; omega
  | Lake => simp [roomSum, updateRoom, optCount, hr]; omega
  | Outside => simp [roomSum, updateRoom, optCount, hr]; omega
  | Castle => simp [roomSum, updateRoom, optCount, hr]; omega
  | Treasury => simp [roomSum, updateRoom, optCount, hr]; omega

theorem roomSizes_update (rooms : RoomId → Option Room) (loc : RoomId)
    (hloc : loc ≠ RoomId.NONE) (room room2 : Room) (hr : rooms loc = some room) :
    roomSizes (updateRoom rooms loc room2) + room.objects.length
      = roomSizes rooms + room2.objects.length := by
  cases loc with
  | NONE => exact absurd rfl hloc
  | Mountain => simp [roomSizes, updateRoom, optSize, hr]; omega
  | Forest => simp [roomSizes, updateRoom, optSize, hr]; omega
  | Lake => simp [roomSizes, updateRoom, optSize, hr]; omega
  | Outside => simp [roomSizes, updateRoom, optSize, hr]; omega
  | Castle => simp [roomSizes, updateRoom, optSize, hr]; omega
  | Treasury => simp [roomSizes, updateRoom, optSize, hr]; omega

/-! ## The global invariant and lock monotonicity -/

/-- The invariant maintained by every verb handler: the player stands in a
real room, the map holds exactly the real rooms, exits lead to real rooms,
every object name is held by at most one container, and the key does not
exist before it is discovered in the lake. -/
structure WInv (w : World) : Prop where
  loc_ne : w.location ≠ RoomId.NONE
  rooms_some : ∀ r, r ≠ RoomId.NONE → (w.rooms r).isSome = true
  dests : ∀ r room, w.rooms r = some room → ∀ e ∈ room.exits, e.dest ≠ RoomId.NONE
  counts : ∀ n, totalCount w n ≤ 1
  key_fresh : w.found_key = false → totalCount w "key" = 0

theorem WInv.room_at (hInv : WInv w) : ∃ room, w.rooms w.location = some room :=
  Option.isSome_iff_exists.mp (hInv.rooms_some w.location hInv.loc_ne)

/-- Once an obstruction is `Free` in `w`, it is still `Free` in `w2`. -/
def lockMono (w w2 : World) : Prop :=
  ∀ r d, w.obstruction r d = some Lock.Free → w2.obstruction r d = some Lock.Free

theorem lockMono_refl (w : World) : lockMono w w := fun _ _ h => h

theorem lockMono_trans (h1 : lockMono w w2) (h2 : lockMono w2 w3) : lockMono w w3 :=
  fun r d hf => h2 r d (h1 r d hf)

theorem lockMono_of_rooms_eq (h : w2.rooms = w.rooms) : lockMono w w2 := by
  intro r d hf
  unfold World.obstruction at *
  rw [h]
  exact hf

theorem lockMono_update (hr : w.rooms loc = some room)
    (h2 : w2.rooms = updateRoom w.rooms loc room2)
    (hmono : ∀ d, room.can_travel d = Lock.Free → room2.can_travel d = Lock.Free) :
    lockMono w w2 := by
  intro r d hf
  unfold World.obstruction at *
  rw [h2]
  by_cases hrl : r = loc
  · subst hrl
    rw [hr] at hf
    rw [updateRoom_self]
    simp only [Option.some.injEq] at hf ⊢
    exact hmono d hf
  · rw [updateRoom_ne w.rooms loc room2 r hrl]
    exact hf

/-- A handler call is safe: it returns a result whose post-state satisfies
the invariant and only relaxes locks. -/
def StepOK (w : World) (res : Option (World × List String)) : Prop :=
  ∃ p, res = some p ∧ WInv p.1 ∧ lockMono w p.1

theorem stepOK_noop (hInv : WInv w) (out : List String) : StepOK w (some (w, out)) :=
  ⟨(w, out), rfl, hInv, lockMono_refl w⟩

theorem inv_game_over (hInv : WInv w) (b : Bool) : WInv { w with game_over := b } :=
  ⟨hInv.loc_ne, hInv.rooms_some, hInv.dests, hInv.counts, hInv.key_fresh⟩

theorem inv_location (hInv : WInv w) (nr : RoomId) (hne : nr ≠ RoomId.NONE) :
    WInv { w with location := nr } :=
  ⟨hne, hInv.rooms_some, hInv.dests, hInv.counts, hInv.key_fresh⟩

/-! ## Per-handler safety lemmas -/

theorem ok_help (hInv : WInv w) : StepOK w w.cmd_help :=
  ⟨_, rfl, hInv, lockMono_refl w⟩

theorem ok_quit (hInv : WInv w) : StepOK w w.cmd_quit :=
  ⟨_, rfl, inv_game_over hInv true, lockMono_of_rooms_eq rfl⟩

theorem ok_invent (hInv : WInv w) : StepOK w w.cmd_invent :=
  ⟨_, rfl, hInv, lockMono_refl w⟩

theorem ok_look (hInv : WInv w) : StepOK w w.cmd_look := by
  obtain ⟨room, hr⟩ := hInv.room_at
  unfold World.cmd_look World.describe_room
  rw [hr]
  exact stepOK_noop hInv _

theorem ok_attack (hInv : WInv w) (noun : String) : StepOK w (w.cmd_attack noun) := by
  unfold World.cmd_attack
  dsimp only
  repeat' split
  all_goals exact stepOK_noop hInv _

theorem ok_go (hInv : WInv w) (noun : String) : StepOK w (w.cmd_go noun) := by
  unfold World.cmd_go
  split
  · exact stepOK_noop hInv _
  rcases hdn : dirOfNoun noun with _ | d
  · exact stepOK_noop hInv _
  · dsimp only
    obtain ⟨room, hr⟩ := hInv.room_at
    rw [hr]
    dsimp only
    split
    case _ hct =>
      have hne : room.next_room d ≠ RoomId.NONE :=
        next_room_ne_none room d (hInv.dests _ _ hr) hct
      rw [if_neg hne]
      have hr2 : ∃ room2, w.rooms (room.next_room d) = some room2 :=
        Option.isSome_iff_exists.mp (hInv.rooms_some _ hne)
      obtain ⟨room2, hr2⟩ := hr2
      simp only [World.describe_room]
      rw [hr2]
      exact ⟨_, rfl, inv_location hInv _ hne, lockMono_of_rooms_eq rfl⟩
    case _ => exact stepOK_noop hInv _


theorem free_exit_objects (room : Room) (d : Dir) : (room.free_exit d).objects = room.objects := rfl

theorem dests_objects (room : Room) (objs : List String)
    (hd : ∀ e ∈ room.exits, e.dest ≠ RoomId.NONE) :
    ∀ e ∈ ({ room with objects := objs } : Room).exits, e.dest ≠ RoomId.NONE := hd

theorem ok_drop (hInv : WInv w) (noun : String) : StepOK w (w.cmd_drop noun) := by
  unfold World.cmd_drop
  split
  · exact stepOK_noop hInv _
  rcases hrem : ObjectList.remove w.inventory noun with ⟨b, inv2⟩
  cases b
  · dsimp only
    exact stepOK_noop hInv _
  · dsimp only
    obtain ⟨room, hr⟩ := hInv.room_at
    rw [hr]
    dsimp only
    refine ⟨_, rfl, ?_, lockMono_update hr rfl (fun d hf => hf)⟩
    refine ⟨hInv.loc_ne, rooms_some_update _ _ _ hInv.rooms_some,
            dests_update _ _ _ hInv.dests (dests_objects room _ (hInv.dests _ _ hr)), ?_, ?_⟩
    · intro n
      have h1 := remove_true_cnt w.inventory noun inv2 hrem n
      have h2 := roomSum_update w.rooms w.location hInv.loc_ne room
        { room with objects := ObjectList.add room.objects noun } hr n
      have h3 : cnt n (ObjectList.add room.objects noun)
          = cnt n room.objects + (if noun = n then 1 else 0) := by
        rw [ObjectList.add, cnt_append, cnt_singleton]
      have h4 := hInv.counts n
      simp only [totalCount] at h4 ⊢
      dsimp only at h2
      omega
    · intro hfk
      have h0 := hInv.key_fresh hfk
      have h1 := remove_true_cnt w.inventory noun inv2 hrem "key"
      have h2 := roomSum_update w.rooms w.location hInv.loc_ne room
        { room with objects := ObjectList.add room.objects noun } hr "key"
      have h3 : cnt "key" (ObjectList.add room.objects noun)
          = cnt "key" room.objects + (if noun = "key" then 1 else 0) := by
        rw [ObjectList.add, cnt_append, cnt_singleton]
      simp only [totalCount] at h0 ⊢
      dsimp only at h2
      omega

theorem ok_get (hInv : WInv w) (noun : String) : StepOK w (w.cmd_get noun) := by
  unfold World.cmd_get
  split
  · exact stepOK_noop hInv _
  split
  · exact stepOK_noop hInv _
  split
  · exact stepOK_noop hInv _
  split
  · exact stepOK_noop hInv _
  obtain ⟨room, hr⟩ := hInv.room_at
  rw [hr]
  dsimp only
  rcases hrem : ObjectList.remove room.objects noun with ⟨b, objs2⟩
  cases b
  · dsimp only
    exact stepOK_noop hInv _
  · dsimp only
    have hinv2 : WInv { w with rooms := updateRoom w.rooms w.location { room with objects := objs2 },
                               inventory := ObjectList.add w.inventory noun } := by
      refine ⟨hInv.loc_ne, rooms_some_update _ _ _ hInv.rooms_some,
              dests_update _ _ _ hInv.dests (dests_objects room _ (hInv.dests _ _ hr)), ?_, ?_⟩
      · intro n
        have h1 := remove_true_cnt room.objects noun objs2 hrem n
        have h2 := roomSum_update w.rooms w.location hInv.loc_ne room
          { room with objects := objs2 } hr n
        have h3 : cnt n (ObjectList.add w.inventory noun)
            = cnt n w.inventory + (if noun = n then 1 else 0) := by
          rw [ObjectList.add, cnt_append, cnt_singleton]
        have h4 := hInv.counts n
        simp only [totalCount] at h4 ⊢
        dsimp only at h2
        omega
      · intro hfk
        have h0 := hInv.key_fresh hfk
        have h1 := remove_true_cnt room.objects noun objs2 hrem "key"
        have h2 := roomSum_update w.rooms w.location hInv.loc_ne room
          { room with objects := objs2 } hr "key"
        have h3 : cnt "key" (ObjectList.add w.inventory noun)
            = cnt "key" w.inventory + (if noun = "key" then 1 else 0) := by
          rw [ObjectList.add, cnt_append, cnt_singleton]
        simp only [totalCount] at h0 ⊢
        dsimp only at h2
        omega
    have hmono : lockMono w { w with rooms := updateRoom w.rooms w.location { room with objects := objs2 },
                                     inventory := ObjectList.add w.inventory noun } :=
      lockMono_update hr rfl (fun d hf => hf)
    split
    · exact ⟨_, rfl, inv_game_over hinv2 true, hmono⟩
    · exact ⟨_, rfl, hinv2, hmono⟩

theorem ok_give (hInv : WInv w) (n1 n2 : String) : StepOK w (w.cmd_give n1 n2) := by
  unfold World.cmd_give
  split
  · exact stepOK_noop hInv _
  split
  · exact stepOK_noop hInv _
  obtain ⟨room, hr⟩ := hInv.room_at
  rw [hr]
  dsimp only
  split
  · exact stepOK_noop hInv _
  split
  · refine ⟨_, rfl, ?_, lockMono_of_rooms_eq rfl⟩
    refine ⟨hInv.loc_ne, hInv.rooms_some, hInv.dests, ?_, ?_⟩
    · intro n
      have h1 := remove_cnt_le w.inventory n1 n
      have h4 := hInv.counts n
      simp only [totalCount] at h4 ⊢
      omega
    · intro hfk
      have h0 := hInv.key_fresh hfk
      have h1 := remove_cnt_le w.inventory n1 "key"
      simp only [totalCount] at h0 ⊢
      omega
  split
  · refine ⟨_, rfl, ?_, lockMono_update hr rfl
      (fun d hf => can_travel_free_exit_free _ _ _ hf)⟩
    refine ⟨hInv.loc_ne, rooms_some_update _ _ _ hInv.rooms_some,
            dests_update _ _ _ hInv.dests
              (dests_free_exit _ _ (dests_objects room _ (hInv.dests _ _ hr))), ?_, ?_⟩
    · intro n
      have h1 := remove_cnt_le w.inventory n1 n
      have h2 := roomSum_update w.rooms w.location hInv.loc_ne room
        (Room.free_exit { room with objects := (ObjectList.remove room.objects "crocodile").2 } Dir.E) hr n
      have h3 := remove_cnt_le room.objects "crocodile" n
      have h4 := hInv.counts n
      simp only [free_exit_objects] at h2
      simp only [totalCount] at h4 ⊢
      omega
    · intro hfk
      have h0 := hInv.key_fresh hfk
      have h1 := remove_cnt_le w.inventory n1 "key"
      have h2 := roomSum_update w.rooms w.location hInv.loc_ne room
        (Room.free_exit { room with objects := (ObjectList.remove room.objects "crocodile").2 } Dir.E) hr "key"
      have h3 := remove_cnt_le room.objects "crocodile" "key"
      simp only [free_exit_objects] at h2
      simp only [totalCount] at h0 ⊢
      omega
  · exact stepOK_noop hInv _

theorem ok_feed (hInv : WInv w) (n1 n2 : String) : StepOK w (w.cmd_feed n1 n2) := by
  unfold World.cmd_feed
  split
  · exact stepOK_noop hInv _
  · exact ok_give hInv n1 n2

theorem ok_open (hInv : WInv w) (noun : String) : StepOK w (w.cmd_open noun) := by
  unfold World.cmd_open
  split
  · exact stepOK_noop hInv _
  split
  · split
    · exact stepOK_noop hInv _
    obtain ⟨room, hr⟩ := hInv.room_at
    rw [hr]
    dsimp only
    refine ⟨_, rfl, ?_, lockMono_update hr rfl
      (fun d hf => can_travel_free_exit_free _ _ _ hf)⟩
    refine ⟨hInv.loc_ne, rooms_some_update _ _ _ hInv.rooms_some,
            dests_update _ _ _ hInv.dests (dests_free_exit _ _ (hInv.dests _ _ hr)), ?_, ?_⟩
    · intro n
      have h1 := remove_cnt_le w.inventory "key" n
      have h2 := roomSum_update w.rooms w.location hInv.loc_ne room
        (room.free_exit Dir.E) hr n
      have h4 := hInv.counts n
      simp only [free_exit_objects] at h2
      simp only [totalCount] at h4 ⊢
      omega
    · intro hfk
      have h0 := hInv.key_fresh hfk
      have h1 := remove_cnt_le w.inventory "key" "key"
      have h2 := roomSum_update w.rooms w.location hInv.loc_ne room
        (room.free_exit Dir.E) hr "key"
      simp only [free_exit_objects] at h2
      simp only [totalCount] at h0 ⊢
      omega
  · exact stepOK_noop hInv _

theorem ok_swim (hInv : WInv w) : StepOK w w.cmd_swim := by
  unfold World.cmd_swim
  split
  · split
    · exact stepOK_noop hInv _
    case _ hfk =>
      have hfk2 : w.found_key = false := by simpa using hfk
      refine ⟨_, rfl, ?_, lockMono_of_rooms_eq rfl⟩
      refine ⟨hInv.loc_ne, hInv.rooms_some, hInv.dests, ?_, ?_⟩
      · intro n
        have hadd : cnt n (ObjectList.add w.inventory "key")
            = cnt n w.inventory + (if "key" = n then 1 else 0) := by
          rw [ObjectList.add, cnt_append, cnt_singleton]
        by_cases hk : n = "key"
        · subst hk
          have h0 := hInv.key_fresh hfk2
          simp at hadd
          simp only [totalCount] at h0 ⊢
          omega
        · have hd : ¬("key" = n) := fun h => hk h.symm
          rw [if_neg hd] at hadd
          have h4 := hInv.counts n
          simp only [totalCount] at h4 ⊢
          omega
      · intro hcontra
        simp at hcontra
  · exact stepOK_noop hInv _
  · exact stepOK_noop hInv _

theorem ok_say (hInv : WInv w) (noun : String) : StepOK w (w.cmd_say noun) := by
  unfold World.cmd_say
  split
  · exact stepOK_noop hInv _
  split
  · obtain ⟨room, hr⟩ := hInv.room_at
    rw [hr]
    dsimp only
    refine ⟨_, rfl, ?_, lockMono_update hr rfl
      (fun d hf => can_travel_free_exit_free _ _ _ hf)⟩
    refine ⟨hInv.loc_ne, rooms_some_update _ _ _ hInv.rooms_some,
            dests_update _ _ _ hInv.dests (dests_free_exit _ _ (hInv.dests _ _ hr)), ?_, ?_⟩
    · intro n
      have h2 := roomSum_update w.rooms w.location hInv.loc_ne room
        (room.free_exit Dir.S) hr n
      have h4 := hInv.counts n
      simp only [free_exit_objects] at h2
      simp only [totalCount] at h4 ⊢
      omega
    · intro hfk
      have h0 := hInv.key_fresh hfk
      have h2 := roomSum_update w.rooms w.location hInv.loc_ne room
        (room.free_exit Dir.S) hr "key"
      simp only [free_exit_objects] at h2
      simp only [totalCount] at h0 ⊢
      omega
  · exact stepOK_noop hInv _

theorem ok_use (hInv : WInv w) (noun : String) : StepOK w (w.cmd_use noun) := by
  unfold World.cmd_use
  split
  · exact stepOK_noop hInv _
  split
  · exact stepOK_noop hInv _
  split
  · exact ok_open hInv "door"
  · exact stepOK_noop hInv _

/-! ## Safety of the dispatcher and of whole runs -/

theorem stepOK_ite (c : Prop) [Decidable c] (a b : Option (World × List String))
    (ha : c → StepOK w a) (hb : ¬c → StepOK w b) : StepOK w (if c then a else b) := by
  by_cases h : c
  · rw [if_pos h]; exact ha h
  · rw [if_neg h]; exact hb h

theorem dispatch_ok (hInv : WInv w) (cmd noun1 noun2 : String) :
    StepOK w (w.dispatch cmd noun1 noun2) := by
  unfold World.dispatch
  refine stepOK_ite _ _ _ (fun _ => ok_help hInv) (fun _ => ?_)
  refine stepOK_ite _ _ _ (fun _ => ok_quit hInv) (fun _ => ?_)
  refine stepOK_ite _ _ _ (fun _ => ok_invent hInv) (fun _ => ?_)
  refine stepOK_ite _ _ _ (fun _ => ok_look hInv) (fun _ => ?_)
  refine stepOK_ite _ _ _ (fun _ => ok_go hInv _) (fun _ => ?_)
  refine stepOK_ite _ _ _ (fun _ => ok_go hInv _) (fun _ => ?_)
  refine stepOK_ite _ _ _ (fun _ => ok_drop hInv _) (fun _ => ?_)
  refine stepOK_ite _ _ _ (fun _ => ok_get hInv _) (fun _ => ?_)
  refine stepOK_ite _ _ _ (fun _ => ok_give hInv _ _) (fun _ => ?_)
  refine stepOK_ite _ _ _ (fun _ => ok_feed hInv _ _) (fun _ => ?_)
  refine stepOK_ite _ _ _ (fun _ => ok_attack hInv _) (fun _ => ?_)
  refine stepOK_ite _ _ _ (fun _ => ok_open hInv _) (fun _ => ?_)
  refine stepOK_ite _ _ _ (fun _ => ok_swim hInv) (fun _ => ?_)
  refine stepOK_ite _ _ _ (fun _ => ok_say hInv _) (fun _ => ?_)
  refine stepOK_ite _ _ _ (fun _ => ok_say hInv _) (fun _ => ?_)
  refine stepOK_ite _ _ _ (fun _ => ok_use hInv _) (fun _ => ?_)
  exact stepOK_noop hInv _

theorem parse_command_ok (hInv : WInv w) (words : List String) :
    StepOK w (w.parse_command words) := by
  unfold World.parse_command
  exact stepOK_ite _ _ _ (fun _ => stepOK_noop hInv _) (fun _ => dispatch_ok hInv _ _ _)

theorem cnt_eq_zero_of_not_mem (n : String) : ∀ l : List String, n ∉ l → cnt n l = 0 := by
  intro l
  induction l with
  | nil => intro _; rfl
  | cons x xs ih =>
    intro h
    simp only [List.mem_cons, not_or] at h
    have hx : ¬ x = n := fun hc => h.1 hc.symm
    simp [cnt, hx, ih h.2]

theorem cnt_le_one_of_nodup (n : String) : ∀ l : List String, l.Nodup → cnt n l ≤ 1 := by
  intro l
  induction l with
  | nil => intro _; simp [cnt]
  | cons x xs ih =>
    intro hn
    simp only [List.nodup_cons] at hn
    by_cases hx : x = n
    · subst hx
      have h0 : cnt x xs = 0 := cnt_eq_zero_of_not_mem x xs hn.1
      simp [cnt, h0]
    · simp only [cnt, if_neg hx]
      have := ih hn.2
      omega

theorem winv_new : WInv World.new := by
  refine ⟨?_, ?_, ?_, ?_, ?_⟩
  · intro h; cases h
  · intro r hr
    cases r
    · exact absurd rfl hr
    all_goals rfl
  · intro r room hrm
    cases r
    · simp [World.new, create_rooms] at hrm
    all_goals
      simp only [World.new, create_rooms, Option.some.injEq] at hrm
      subst hrm
      decide
  · intro n
    have key : totalCount World.new n
        = cnt n ["sword", "crocodile", "parrot", "steak", "guard", "carrot", "treasure"] := by
      simp [totalCount, roomSum, optCount, World.new, create_rooms, cnt]
      omega
    rw [key]
    exact cnt_le_one_of_nodup n _ (by decide)
  · intro _
    rfl

theorem run_ok : ∀ (cmds : List (List String)) (w : World), WInv w →
    ∀ w2, World.run w cmds = some w2 → WInv w2 ∧ lockMono w w2 := by
  intro cmds
  induction cmds with
  | nil =>
    intro w hInv w2 h
    simp only [World.run, Option.some.injEq] at h
    subst h
    exact ⟨hInv, lockMono_refl w⟩
  | cons ws rest ih =>
    intro w hInv w2 h
    obtain ⟨p, hp, hInv2, hmono⟩ := parse_command_ok hInv ws
    unfold World.run World.step at h
    rw [hp] at h
    dsimp only at h
    obtain ⟨hI, hm⟩ := ih p.1 hInv2 w2 h
    exact ⟨hI, lockMono_trans hmono hm⟩

theorem reachable_winv (h : Reachable w) : WInv w := by
  obtain ⟨cmds, hrun⟩ := h
  exact (run_ok cmds World.new winv_new w hrun).1

/-! ## Object accounting per handler -/

theorem add_length (v : List String) (n : String) :
    (ObjectList.add v n).length = v.length + 1 := by
  simp [ObjectList.add]

theorem cmd_get_counts (hloc : w.location ≠ RoomId.NONE) (noun : String) (p : World × List String)
    (h : w.cmd_get noun = some p) :
    (∀ n, totalCount p.1 n = totalCount w n) ∧ totalSize p.1 = totalSize w := by
  unfold World.cmd_get at h
  split at h
  · simp only [Option.some.injEq] at h; subst h; exact ⟨fun n => rfl, rfl⟩
  split at h
  · simp only [Option.some.injEq] at h; subst h; exact ⟨fun n => rfl, rfl⟩
  split at h
  · simp only [Option.some.injEq] at h; subst h; exact ⟨fun n => rfl, rfl⟩
  split at h
  · simp only [Option.some.injEq] at h; subst h; exact ⟨fun n => rfl, rfl⟩
  rcases hr : w.rooms w.location with _ | room
  · rw [hr] at h; cases h
  rw [hr] at h
  dsimp only at h
  rcases hrem : ObjectList.remove room.objects noun with ⟨b, objs2⟩
  rw [hrem] at h
  cases b
  · dsimp only at h
    simp only [Option.some.injEq] at h; subst h; exact ⟨fun n => rfl, rfl⟩
  dsimp only at h
  have key : ∀ q : World × List String,
      q.1 = { w with rooms := updateRoom w.rooms w.location { room with objects := objs2 },
                     inventory := ObjectList.add w.inventory noun, game_over := q.1.game_over } →
      (∀ n, totalCount q.1 n = totalCount w n) ∧ totalSize q.1 = totalSize w := by
    intro q hq
    constructor
    · intro n
      have h1 := remove_true_cnt room.objects noun objs2 hrem n
      have h2 := roomSum_update w.rooms w.location hloc room
        { room with objects := objs2 } hr n
      have h3 : cnt n (ObjectList.add w.inventory noun)
          = cnt n w.inventory + (if noun = n then 1 else 0) := by
        rw [ObjectList.add, cnt_append, cnt_singleton]
      rw [hq]
      simp only [totalCount]
      dsimp only at h2 ⊢
      omega
    · have h1 := remove_true_len room.objects noun objs2 hrem
      have h2 := roomSizes_update w.rooms w.location hloc room
        { room with objects := objs2 } hr
      have h3 := add_length w.inventory noun
      rw [hq]
      simp only [totalSize]
      dsimp only at h2 ⊢
      omega
  split at h
  · simp only [Option.some.injEq] at h
    subst h
    exact key _ rfl
  · simp only [Option.some.injEq] at h
    subst h
    exact key _ rfl

theorem cmd_drop_counts (hloc : w.location ≠ RoomId.NONE) (noun : String) (p : World × List String)
    (h : w.cmd_drop noun = some p) :
    (∀ n, totalCount p.1 n = totalCount w n) ∧ totalSize p.1 = totalSize w := by
  unfold World.cmd_drop at h
  split at h
  · simp only [Option.some.injEq] at h; subst h; exact ⟨fun n => rfl, rfl⟩
  rcases hrem : ObjectList.remove w.inventory noun with ⟨b, inv2⟩
  rw [hrem] at h
  cases b
  · dsimp only at h
    simp only [Option.some.injEq] at h; subst h; exact ⟨fun n => rfl, rfl⟩
  dsimp only at h
  rcases hr : w.rooms w.location with _ | room
  · rw [hr] at h; cases h
  rw [hr] at h
  dsimp only at h
  simp only [Option.some.injEq] at h
  subst h
  constructor
  · intro n
    have h1 := remove_true_cnt w.inventory noun inv2 hrem n
    have h2 := roomSum_update w.rooms w.location hloc room
      { room with objects := ObjectList.add room.objects noun } hr n
    have h3 : cnt n (ObjectList.add room.objects noun)
        = cnt n room.objects + (if noun = n then 1 else 0) := by
      rw [ObjectList.add, cnt_append, cnt_singleton]
    simp only [totalCount]
    dsimp only at h2 ⊢
    omega
  · have h1 := remove_true_len w.inventory noun inv2 hrem
    have h2 := roomSizes_update w.rooms w.location hloc room
      { room with objects := ObjectList.add room.objects noun } hr
    have h3 := add_length room.objects noun
    simp only [totalSize]
    dsimp only at h2 ⊢
    omega

theorem cmd_give_counts (hloc : w.location ≠ RoomId.NONE) (n1 n2 : String) (p : World × List String)
    (h : w.cmd_give n1 n2 = some p) :
    (∀ n, totalCount p.1 n ≤ totalCount w n) ∧ totalSize p.1 ≤ totalSize w := by
  unfold World.cmd_give at h
  split at h
  · simp only [Option.some.injEq] at h; subst h; exact ⟨fun n => le_refl _, le_refl _⟩
  split at h
  · simp only [Option.some.injEq] at h; subst h; exact ⟨fun n => le_refl _, le_refl _⟩
  rcases hr : w.rooms w.location with _ | room
  · rw [hr] at h; cases h
  rw [hr] at h
  dsimp only at h
  split at h
  · simp only [Option.some.injEq] at h; subst h; exact ⟨fun n => le_refl _, le_refl _⟩
  split at h
  · simp only [Option.some.injEq] at h
    subst h
    constructor
    · intro n
      have h1 := remove_cnt_le w.inventory n1 n
      simp only [totalCount]
      omega
    · have h1 := remove_len_le w.inventory n1
      simp only [totalSize]
      omega
  split at h
  · simp only [Option.some.injEq] at h
    subst h
    constructor
    · intro n
      have h1 := remove_cnt_le w.inventory n1 n
      have h2 := roomSum_update w.rooms w.location hloc room
        (Room.free_exit { room with objects := (ObjectList.remove room.objects "crocodile").2 } Dir.E) hr n
      have h3 := remove_cnt_le room.objects "crocodile" n
      simp only [free_exit_objects] at h2
      simp only [totalCount]
      omega
    · have h1 := remove_len_le w.inventory n1
      have h2 := roomSizes_update w.rooms w.location hloc room
        (Room.free_exit { room with objects := (ObjectList.remove room.objects "crocodile").2 } Dir.E) hr
      have h3 := remove_len_le room.objects "crocodile"
      simp only [free_exit_objects] at h2
      simp only [totalSize]
      omega
  · simp only [Option.some.injEq] at h; subst h; exact ⟨fun n => le_refl _, le_refl _⟩

theorem cmd_feed_counts (hloc : w.location ≠ RoomId.NONE) (n1 n2 : String) (p : World × List String)
    (h : w.cmd_feed n1 n2 = some p) :
    (∀ n, totalCount p.1 n ≤ totalCount w n) ∧ totalSize p.1 ≤ totalSize w := by
  unfold World.cmd_feed at h
  split at h
  · simp only [Option.some.injEq] at h; subst h; exact ⟨fun n => le_refl _, le_refl _⟩
  · exact cmd_give_counts hloc n1 n2 p h

/-! ## Lemmas about the lexical normalizer -/

theorem splitWsAux_nil_iff : ∀ (l : List Char) (acc : List Char),
    splitWsAux l acc = [] ↔ acc.isEmpty = true ∧ ∀ c ∈ l, c.isWhitespace = true := by
  intro l
  induction l with
  | nil =>
    intro acc
    unfold splitWsAux
    by_cases h : acc.isEmpty = true <;> simp [h]
  | cons c cs ih =>
    intro acc
    unfold splitWsAux
    by_cases hws : c.isWhitespace = true
    · rw [if_pos hws]
      by_cases hacc : acc.isEmpty = true
      · rw [if_pos hacc]
        rw [ih []]
        simp [hacc, hws]
      · rw [if_neg hacc]
        simp [hacc]
    · rw [if_neg hws]
      rw [ih (acc ++ [c])]
      simp [hws]

theorem mem_splitWsAux_ne : ∀ (l : List Char) (acc : List Char) (t : String),
    t ∈ splitWsAux l acc → t.data ≠ [] := by
  intro l
  induction l with
  | nil =>
    intro acc t ht
    unfold splitWsAux at ht
    by_cases hacc : acc.isEmpty = true
    · rw [if_pos hacc] at ht
      cases ht
    · rw [if_neg hacc] at ht
      simp only [List.mem_singleton] at ht
      subst ht
      simpa [List.isEmpty_iff] using hacc
  | cons c cs ih =>
    intro acc t ht
    unfold splitWsAux at ht
    by_cases hws : c.isWhitespace = true
    · rw [if_pos hws] at ht
      by_cases hacc : acc.isEmpty = true
      · rw [if_pos hacc] at ht
        exact ih [] t ht
      · rw [if_neg hacc] at ht
        simp only [List.mem_cons] at ht
        rcases ht with ht | ht
        · subst ht
          simpa [List.isEmpty_iff] using hacc
        · exact ih [] t ht
    · rw [if_neg hws] at ht
      exact ih (acc ++ [c]) t ht

theorem splitWhitespace_nil_iff (input : String) :
    splitWhitespace input = [] ↔ ∀ c ∈ input.data, c.isWhitespace = true := by
  unfold splitWhitespace
  rw [splitWsAux_nil_iff]
  simp

theorem splitWhitespace_words_ne (input : String) :
    ∀ t ∈ splitWhitespace input, t ≠ "" := by
  intro t ht hc
  subst hc
  exact mem_splitWsAux_ne input.data [] "" ht rfl

theorem lowerStr_ne_empty (t : String) (h : t ≠ "") : lowerStr t ≠ "" := by
  intro hc
  apply h
  have hd := congrArg String.data hc
  simp only [lowerStr, List.map_eq_nil_iff] at hd
  cases t with
  | mk data =>
    simp only at hd
    subst hd
    rfl

theorem sanitize_pipeline : ∀ toks : List String, (∀ t ∈ toks, t ≠ "") →
    sanitize_list toks =
      ((toks.map lowerStr).filter (fun t => decide (t ∉ fillerWords))).map
        (fun t => if t = "croc" then "crocodile" else t) := by
  intro toks
  induction toks with
  | nil => intro _; rfl
  | cons t ts ih =>
    intro hne
    have ht : t ≠ "" := hne t (List.mem_cons_self t ts)
    have hts : ∀ x ∈ ts, x ≠ "" := fun x hx => hne x (List.mem_cons_of_mem t hx)
    have hrest := ih hts
    by_cases hf : lowerStr t ∈ fillerWords
    · have hcond : lowerStr t = "a" ∨ lowerStr t = "an" ∨ lowerStr t = "the" ∨
          lowerStr t = "to" ∨ lowerStr t = "with" := by
        simpa [fillerWords] using hf
      have hword : sanitize_word t = "" := by
        unfold sanitize_word
        rw [if_pos hcond]
      simp only [sanitize_list, hword, if_pos rfl]
      rw [hrest]
      simp only [List.map_cons, List.filter_cons, hf]
      simp
    · have hcond : ¬ (lowerStr t = "a" ∨ lowerStr t = "an" ∨ lowerStr t = "the" ∨
          lowerStr t = "to" ∨ lowerStr t = "with") := by
        simpa [fillerWords] using hf
      have hword : sanitize_word t = if lowerStr t = "croc" then "crocodile" else lowerStr t := by
        unfold sanitize_word
        rw [if_neg hcond]
      have hword_ne : sanitize_word t ≠ "" := by
        rw [hword]
        by_cases hcroc : lowerStr t = "croc"
        · rw [if_pos hcroc]; decide
        · rw [if_neg hcroc]; exact lowerStr_ne_empty t ht
      simp only [sanitize_list, if_neg hword_ne]
      rw [hrest, hword]
      simp only [List.map_cons, List.filter_cons]
      have : decide (lowerStr t ∉ fillerWords) = true := by simpa using hf
      rw [this]
      simp

/-! ## Claim theorems -/

/-- C1: for every room and direction, once the obstruction query
(`can_travel`) returns `Lock.Free` for that exit, no sequence of subsequent
verb-handler calls, starting from the initial world and driven by any
sequence of commands, ever makes it return a blocking value again. -/
theorem monotonic_unlocking :
    ∀ (cmds1 : List (List String)) (w1 : World), World.run World.new cmds1 = some w1 →
    ∀ (r : RoomId) (d : Dir), w1.obstruction r d = some Lock.Free →
    ∀ (cmds2 : List (List String)) (w2 : World), World.run w1 cmds2 = some w2 →
    w2.obstruction r d = some Lock.Free := by
  intro cmds1 w1 h1 r d hf cmds2 w2 h2
  have hInv1 := (run_ok cmds1 World.new winv_new w1 h1).1
  exact (run_ok cmds2 w1 hInv1 w2 h2).2 r d hf

/-- Witness for C1: the Mountain north exit is free initially and stays free
after walking north. -/
theorem monotonic_unlocking_witness :
    ∃ w2, World.run World.new [["n"]] = some w2
      ∧ w2.obstruction RoomId.Mountain Dir.N = some Lock.Free := by
  have hs : (World.run World.new [["n"]]).isSome = true := rfl
  obtain ⟨w2, e⟩ := Option.isSome_iff_exists.mp hs
  exact ⟨w2, e, monotonic_unlocking [] World.new rfl RoomId.Mountain Dir.N rfl [["n"]] w2 e⟩

/-- C9: in every state reachable from the initial world the current location
is a real room and a key of the room map, so `describe_room` and every
handler call (hence the `unwrap`s and the movement `assert!`, modelled as
`none` results) never fail. -/
theorem reachable_location_safe :
    ∀ w, Reachable w →
      (w.location ≠ RoomId.NONE ∧ (w.rooms w.location).isSome = true)
      ∧ (w.describe_room).isSome = true
      ∧ ∀ words, (w.parse_command words).isSome = true := by
  intro w hw
  have hInv := reachable_winv hw
  obtain ⟨room, hr⟩ := hInv.room_at
  refine ⟨⟨hInv.loc_ne, hInv.rooms_some _ hInv.loc_ne⟩, ?_, ?_⟩
  · unfold World.describe_room
    rw [hr]
    rfl
  · intro words
    obtain ⟨p, hp, -, -⟩ := parse_command_ok hInv words
    rw [hp]
    rfl

/-- Witness for C9 at the initial world. -/
theorem reachable_location_safe_witness :
    (World.new.location ≠ RoomId.NONE ∧ (World.new.rooms World.new.location).isSome = true)
    ∧ (World.new.describe_room).isSome = true
    ∧ ∀ words, (World.new.parse_command words).isSome = true :=
  reachable_location_safe World.new ⟨[], rfl⟩

/-- C2 counterexample: at the reachable state after `n`, `w`, `get steak`,
`e` the world holds 7 objects, and the give handler applied to
`("steak", "crocodile")` leaves only 5 — giving does not preserve the total
object count. -/
theorem give_decreases_count_cex :
    ((World.run World.new [["n"], ["w"], ["get", "steak"], ["e"]]).map totalSize = some 7)
    ∧ ((World.run World.new [["n"], ["w"], ["get", "steak"], ["e"]]).bind
        (fun w1 => (w1.cmd_give "steak" "crocodile").map (fun p => totalSize p.1)) = some 5) :=
  ⟨rfl, rfl⟩

/-- C2 as amended: in every reachable state each object name is held by at
most one container (inventory or a room), the take and drop handlers
preserve the total object count, and the give and feed handlers never
increase it (the hard-coded pairs consume objects). -/
theorem ownership_and_transfer_counts :
    ∀ w, Reachable w →
      (∀ n, totalCount w n ≤ 1)
      ∧ (∀ noun p, w.cmd_get noun = some p → totalSize p.1 = totalSize w)
      ∧ (∀ noun p, w.cmd_drop noun = some p → totalSize p.1 = totalSize w)
      ∧ (∀ n1 n2 p, w.cmd_give n1 n2 = some p → totalSize p.1 ≤ totalSize w)
      ∧ (∀ n1 n2 p, w.cmd_feed n1 n2 = some p → totalSize p.1 ≤ totalSize w) := by
  intro w hw
  have hInv := reachable_winv hw
  exact ⟨hInv.counts,
    fun noun p h => (cmd_get_counts hInv.loc_ne noun p h).2,
    fun noun p h => (cmd_drop_counts hInv.loc_ne noun p h).2,
    fun n1 n2 p h => (cmd_give_counts hInv.loc_ne n1 n2 p h).2,
    fun n1 n2 p h => (cmd_feed_counts hInv.loc_ne n1 n2 p h).2⟩

/-- Witness for the amended C2 at the initial world. -/
theorem ownership_and_transfer_counts_witness :
    (∀ n, totalCount World.new n ≤ 1)
    ∧ (∃ p, World.new.cmd_get "sword" = some p ∧ totalSize p.1 = totalSize World.new) := by
  have h := ownership_and_transfer_counts World.new ⟨[], rfl⟩
  refine ⟨h.1, ?_⟩
  have hs : (World.new.cmd_get "sword").isSome = true := rfl
  obtain ⟨p, hp⟩ := Option.isSome_iff_exists.mp hs
  exact ⟨p, hp, h.2.1 "sword" p hp⟩

/-- C8: the lexical normalizer is a pure total function; it yields the
empty-result marker exactly on whitespace-only input, and otherwise the
whitespace-split tokens lowercased, with the filler words dropped and
"croc" expanded, in order. -/
theorem normalizer_spec :
    ∀ input : String,
      parse_input input = normalizeSpec input
      ∧ (parse_input input = Parse.Empty ↔ ∀ c ∈ input.data, c.isWhitespace = true) := by
  intro input
  have hmain : parse_input input = normalizeSpec input := by
    unfold parse_input normalizeSpec
    by_cases hempty : splitWhitespace input = []
    · simp [hempty]
    · have hne : ¬ (splitWhitespace input).isEmpty = true := by
        simpa [List.isEmpty_iff] using hempty
      rw [if_neg hne, if_neg hempty]
      rw [sanitize_pipeline (splitWhitespace input) (splitWhitespace_words_ne input)]
  refine ⟨hmain, ?_⟩
  rw [hmain]
  unfold normalizeSpec
  by_cases hempty : splitWhitespace input = []
  · rw [if_pos hempty]
    simp only [true_iff, iff_true]
    exact (splitWhitespace_nil_iff input).mp hempty
  · rw [if_neg hempty]
    constructor
    · intro hc
      cases hc
    · intro hws
      exact absurd ((splitWhitespace_nil_iff input).mpr hws) hempty

/-- C10: the attack handler never mutates the world: for every noun and
state it returns the same world with only narrative output. -/
theorem attack_no_mutation :
    ∀ (w : World) (noun : String), ∃ out, w.cmd_attack noun = some (w, out) := by
  intro w noun
  unfold World.cmd_attack
  by_cases h1 : noun = ""
  · rw [if_pos h1]; exact ⟨_, rfl⟩
  rw [if_neg h1]
  dsimp only
  by_cases h2 : noun = "crocodile"
  · rw [if_pos h2]; exact ⟨_, rfl⟩
  rw [if_neg h2]
  by_cases h3 : noun = "guard"
  · rw [if_pos h3]
    by_cases h4 : ObjectList.has w.inventory "sword" = true
    · rw [if_pos h4]; exact ⟨_, rfl⟩
    · rw [if_neg h4]; exact ⟨_, rfl⟩
  · rw [if_neg h3]
    by_cases h4 : ObjectList.has w.inventory "sword" = true
    · rw [if_pos h4]; exact ⟨_, rfl⟩
    · rw [if_neg h4]; exact ⟨_, rfl⟩

/-- C3: for every reachable world and direction noun, the go handler moves
the player to the exit's destination and re-describes the new room (static
text plus one line per object) when the obstruction is clear, and for every
other obstruction value prints the obstruction-specific narrative and
leaves the whole state unchanged. -/
theorem cmd_go_spec :
    ∀ w, Reachable w → ∀ (noun : String) (d : Dir) (room : Room),
      dirOfNoun noun = some d → w.rooms w.location = some room →
      (room.can_travel d = Lock.Free →
        ∃ room2, w.rooms (room.next_room d) = some room2
          ∧ w.cmd_go noun = some ({ w with location := room.next_room d },
              "" :: room2.description ::
                room2.objects.map (fun ob => s!"There is a {ob} here.")))
      ∧ (room.can_travel d ≠ Lock.Free →
          w.cmd_go noun = some (w, lockNarrative (room.can_travel d))) := by
  intro w hw noun d room hdn hr
  have hInv := reachable_winv hw
  have hne : noun ≠ "" := by
    intro hc
    subst hc
    rw [show dirOfNoun "" = none from rfl] at hdn
    cases hdn
  constructor
  · intro hfree
    have hnr : room.next_room d ≠ RoomId.NONE :=
      next_room_ne_none room d (hInv.dests _ _ hr) hfree
    obtain ⟨room2, hr2⟩ := Option.isSome_iff_exists.mp (hInv.rooms_some _ hnr)
    refine ⟨room2, hr2, ?_⟩
    unfold World.cmd_go
    rw [if_neg hne, hdn]
    dsimp only
    rw [hr]
    dsimp only
    rw [hfree]
    dsimp only
    rw [if_neg hnr]
    simp only [World.describe_room]
    rw [hr2]
  · intro hnfree
    unfold World.cmd_go
    rw [if_neg hne, hdn]
    dsimp only
    rw [hr]
    dsimp only
    rcases hct : room.can_travel d with _ | _ | _ | _ | _
    · rfl
    · exact absurd hct hnfree
    · rfl
    · rfl
    · rfl

/-- Witness for C3: going north from the initial Mountain moves the player
to the Forest. -/
theorem cmd_go_spec_witness :
    ∃ p, World.new.cmd_go "n" = some p
      ∧ p.1.location = RoomId.Forest ∧ p.1.game_over = false := by
  obtain ⟨hfree, -⟩ := cmd_go_spec World.new ⟨[], rfl⟩ "n" Dir.N _ rfl rfl
  obtain ⟨room2, hr2, hgo⟩ := hfree rfl
  exact ⟨_, hgo, rfl, rfl⟩

/-- C4: whenever "treasure" is present in the current room, taking it moves
it into the inventory and sets the terminal flag together with the victory
narrative, directly inside the take handler; no other noun passed to the
take handler ever changes the terminal flag. -/
theorem treasure_win_spec :
    ∀ (w : World) (room : Room), w.rooms w.location = some room →
      (ObjectList.has room.objects "treasure" = true →
        ∃ objs2, ObjectList.remove room.objects "treasure" = (true, objs2)
          ∧ w.cmd_get "treasure" =
              some ({ w with rooms := updateRoom w.rooms w.location { room with objects := objs2 },
                             inventory := ObjectList.add w.inventory "treasure",
                             game_over := true },
                    "You pick up the treasure." :: solved_msg)
          ∧ ObjectList.has (ObjectList.add w.inventory "treasure") "treasure" = true)
      ∧ (∀ (noun : String) (p : World × List String), noun ≠ "treasure" →
          w.cmd_get noun = some p → p.1.game_over = w.game_over) := by
  intro w room hr
  constructor
  · intro hhas
    obtain ⟨objs2, hrem⟩ := remove_true_of_has _ _ hhas
    refine ⟨objs2, hrem, ?_, has_add_self _ _⟩
    unfold World.cmd_get
    rw [if_neg (by decide : ¬ ("treasure" : String) = "")]
    rw [if_neg (by decide : ¬ ("treasure" : String) = "crocodile")]
    rw [if_neg (by decide : ¬ ("treasure" : String) = "parrot")]
    rw [if_neg (by decide : ¬ ("treasure" : String) = "guard")]
    rw [hr]
    dsimp only
    rw [hrem]
    dsimp only
    rw [if_pos rfl]
    rfl
  · intro noun p hne h
    unfold World.cmd_get at h
    split at h
    · simp only [Option.some.injEq] at h; subst h; rfl
    split at h
    · simp only [Option.some.injEq] at h; subst h; rfl
    split at h
    · simp only [Option.some.injEq] at h; subst h; rfl
    split at h
    · simp only [Option.some.injEq] at h; subst h; rfl
    rcases hr2 : w.rooms w.location with _ | room2
    · rw [hr2] at h; cases h
    rw [hr2] at h
    dsimp only at h
    rcases hrem2 : ObjectList.remove room2.objects noun with ⟨b, objs3⟩
    rw [hrem2] at h
    cases b
    · dsimp only at h
      simp only [Option.some.injEq] at h; subst h; rfl
    dsimp only at h
    simp only [Option.some.injEq] at h
    subst h
    rfl

/-- Witness for C4: taking the treasure in the treasury wins; taking the
sword there leaves the terminal flag unset. -/
theorem treasure_win_spec_witness :
    ∃ p, wTreasury.cmd_get "treasure" = some p
      ∧ p.1.game_over = true
      ∧ ObjectList.has p.1.inventory "treasure" = true
      ∧ ∃ q, wTreasury.cmd_get "sword" = some q ∧ q.1.game_over = false := by
  have h := treasure_win_spec wTreasury _ rfl
  obtain ⟨objs2, hrem, hget, hhas⟩ := h.1 rfl
  refine ⟨_, hget, rfl, hhas, ?_⟩
  have hs : (wTreasury.cmd_get "sword").isSome = true := rfl
  obtain ⟨q, hq⟩ := Option.isSome_iff_exists.mp hs
  exact ⟨q, hq, (h.2 "sword" q (by decide) hq).trans rfl⟩

/-- C5 counterexample: `use` on a carried non-key object narrates a fiddle
message, not "You cannot open that!", and `use key` without the key does
not behave like `open door` — so the claim's "any other open/use target
yields a cannot-open-that narrative" and its unconditional forwarding are
both false on the code. -/
theorem open_use_spec_cex :
    (World.new.cmd_use "sword").map Prod.snd
        = some ["You fiddle with your sword, but nothing happens."]
    ∧ (World.new.cmd_use "key").map Prod.snd = some ["You don't have any key to use."]
    ∧ (World.new.cmd_open "door").map Prod.snd = some ["You cannot open that!"]
    ∧ (["You fiddle with your sword, but nothing happens."] : List String)
        ≠ ["You cannot open that!"]
    ∧ (["You don't have any key to use."] : List String) ≠ ["You cannot open that!"] := by
  refine ⟨rfl, rfl, rfl, ?_, ?_⟩ <;> decide

/-- C5 as amended: `use key` forwards to `open door` when the key is
carried and narrates "don't have any key" otherwise; `open door` at
Outside consumes the key and clears the east exit when the key is carried,
narrates "don't have a key" and changes nothing otherwise; `open` on any
other target (or elsewhere) narrates "cannot open that" and changes
nothing. -/
theorem open_use_key_spec :
    (∀ w : World, ObjectList.has w.inventory "key" = true →
        w.cmd_use "key" = w.cmd_open "door")
    ∧ (∀ w : World, ObjectList.has w.inventory "key" = false →
        w.cmd_use "key" = some (w, ["You don't have any key to use."]))
    ∧ (∀ (w : World) (room : Room), w.location = RoomId.Outside →
        w.rooms RoomId.Outside = some room → ObjectList.has w.inventory "key" = true →
        w.cmd_open "door" =
          some ({ w with inventory := (ObjectList.remove w.inventory "key").2,
                         rooms := updateRoom w.rooms RoomId.Outside (room.free_exit Dir.E) },
                ["Carefully you insert the rusty old key in the lock, and turn it.",
                 "Yes!!  The door unlocks!  However the key breaks into several",
                 "pieces and is useless now."])
          ∧ cnt "key" (ObjectList.remove w.inventory "key").2 + 1 = cnt "key" w.inventory
          ∧ (room.can_travel Dir.E ≠ Lock.NONE →
              World.obstruction
                { w with inventory := (ObjectList.remove w.inventory "key").2,
                         rooms := updateRoom w.rooms RoomId.Outside (room.free_exit Dir.E) }
                RoomId.Outside Dir.E = some Lock.Free))
    ∧ (∀ w : World, w.location = RoomId.Outside → ObjectList.has w.inventory "key" = false →
        w.cmd_open "door" = some (w, ["You don't have a key!"]))
    ∧ (∀ (w : World) (noun : String), noun ≠ "" →
        (noun ≠ "door" ∨ w.location ≠ RoomId.Outside) →
        w.cmd_open noun = some (w, ["You cannot open that!"])) := by
  refine ⟨?_, ?_, ?_, ?_, ?_⟩
  · intro w hkey
    unfold World.cmd_use
    rw [if_neg (by decide : ¬ ("key" : String) = "")]
    rw [hkey]
    rw [if_neg (by decide : ¬ (true = false))]
    rw [if_pos rfl]
  · intro w hkey
    unfold World.cmd_use
    rw [if_neg (by decide : ¬ ("key" : String) = "")]
    rw [hkey]
    rw [if_pos rfl]
    rfl
  · intro w room hloc hr hkey
    unfold World.cmd_open
    rw [if_neg (by decide : ¬ ("door" : String) = "")]
    rw [if_pos (⟨rfl, hloc⟩ : ("door" : String) = "door" ∧ w.location = RoomId.Outside)]
    rw [hkey]
    rw [if_neg (by decide : ¬ (true = false))]
    rw [hloc, hr]
    dsimp only
    refine ⟨rfl, ?_, ?_⟩
    · obtain ⟨v2, hrm⟩ := remove_true_of_has _ _ hkey
      have hc := remove_true_cnt w.inventory "key" v2 hrm "key"
      rw [hrm]
      simp at hc
      dsimp only
      omega
    · intro hne
      unfold World.obstruction
      dsimp only
      rw [updateRoom_self]
      dsimp only
      rw [can_travel_free_exit_self room Dir.E hne]
  · intro w hloc hkey
    unfold World.cmd_open
    rw [if_neg (by decide : ¬ ("door" : String) = "")]
    rw [if_pos (⟨rfl, hloc⟩ : ("door" : String) = "door" ∧ w.location = RoomId.Outside)]
    rw [hkey]
    rw [if_pos rfl]
  · intro w noun hne hor
    unfold World.cmd_open
    rw [if_neg hne]
    rw [if_neg (fun hand => hor.elim (fun h1 => h1 hand.1) (fun h2 => h2 hand.2))]

/-- Witness for the amended C5 on concrete worlds. -/
theorem open_use_key_spec_witness :
    wOutsideKey.cmd_use "key" = wOutsideKey.cmd_open "door"
    ∧ World.new.cmd_use "key" = some (World.new, ["You don't have any key to use."])
    ∧ (∃ p, wOutsideKey.cmd_open "door" = some p
        ∧ p.1.obstruction RoomId.Outside Dir.E = some Lock.Free
        ∧ ObjectList.has p.1.inventory "key" = false)
    ∧ wOutside.cmd_open "door" = some (wOutside, ["You don't have a key!"])
    ∧ World.new.cmd_open "sword" = some (World.new, ["You cannot open that!"]) := by
  obtain ⟨h1, h2, h3, h4, h5⟩ := open_use_key_spec
  refine ⟨h1 wOutsideKey rfl, h2 World.new rfl, ?_,
          h4 wOutside rfl rfl, h5 World.new "sword" (by decide) (Or.inl (by decide))⟩
  obtain ⟨hopen, hcnt, hobs⟩ := h3 wOutsideKey _ rfl rfl rfl
  exact ⟨_, hopen, hobs (by decide), rfl⟩

/-- C6: the say handler clears the Castle south exit and narrates success
exactly when the spoken phrase is the password and the player stands in the
Castle; any other nonempty phrase (or any other location) narrates that
nothing happens and changes no state; typing the bare password as the verb
is interpreted as saying the password. -/
theorem say_password_spec :
    (∀ (w : World) (room : Room), w.location = RoomId.Castle →
        w.rooms RoomId.Castle = some room →
        w.cmd_say PASSWORD =
          some ({ w with rooms := updateRoom w.rooms RoomId.Castle (room.free_exit Dir.S) },
                ["The guard says \"Welcome Sire!\" and beckons you to enter",
                 "the treasury."])
        ∧ (room.can_travel Dir.S ≠ Lock.NONE →
            World.obstruction
              { w with rooms := updateRoom w.rooms RoomId.Castle (room.free_exit Dir.S) }
              RoomId.Castle Dir.S = some Lock.Free))
    ∧ (∀ (w : World) (noun : String), noun ≠ "" →
        (noun ≠ PASSWORD ∨ w.location ≠ RoomId.Castle) →
        w.cmd_say noun = some (w, [s!"You say \"{noun}\" but nothing happens."]))
    ∧ (∀ (w : World) (rest : List String),
        w.parse_command (PASSWORD :: rest) = w.cmd_say PASSWORD) := by
  refine ⟨?_, ?_, ?_⟩
  · intro w room hloc hr
    unfold World.cmd_say
    rw [if_neg (by decide : ¬ PASSWORD = "")]
    rw [if_pos (⟨rfl, hloc⟩ : PASSWORD = PASSWORD ∧ w.location = RoomId.Castle)]
    rw [hloc, hr]
    dsimp only
    refine ⟨rfl, ?_⟩
    intro hne
    unfold World.obstruction
    dsimp only
    rw [updateRoom_self]
    dsimp only
    rw [can_travel_free_exit_self room Dir.S hne]
  · intro w noun hne hor
    unfold World.cmd_say
    rw [if_neg hne]
    rw [if_neg (fun hand => hor.elim (fun h1 => h1 hand.1) (fun h2 => h2 hand.2))]
  · intro w rest
    unfold World.parse_command
    have h0 : unwrap_str (PASSWORD :: rest)[0]? = "piehole" := by
      rw [List.getElem?_cons_zero]
      rfl
    rw [h0]
    rw [if_neg (by decide : ¬ ("piehole" : String) = "")]
    unfold World.dispatch
    rw [if_neg (by decide : ¬ ("piehole" : String) = "help")]
    rw [if_neg (by decide : ¬ (("piehole" : String) = "exit" ∨ ("piehole" : String) = "quit" ∨
      ("piehole" : String) = "q"))]
    rw [if_neg (by decide : ¬ (("piehole" : String) = "i" ∨ ("piehole" : String) = "inv" ∨
      ("piehole" : String) = "invent" ∨ ("piehole" : String) = "inventory"))]
    rw [if_neg (by decide : ¬ (("piehole" : String) = "look" ∨ ("piehole" : String) = "l"))]
    rw [if_neg (by decide : ¬ (("piehole" : String) = "go" ∨ ("piehole" : String) = "walk"))]
    rw [if_neg (by decide : ¬ (("piehole" : String) = "n" ∨ ("piehole" : String) = "north" ∨
      ("piehole" : String) = "s" ∨ ("piehole" : String) = "south" ∨
      ("piehole" : String) = "e" ∨ ("piehole" : String) = "east" ∨
      ("piehole" : String) = "w" ∨ ("piehole" : String) = "west" ∨
      ("piehole" : String) = "d" ∨ ("piehole" : String) = "down" ∨
      ("piehole" : String) = "u" ∨ ("piehole" : String) = "up"))]
    rw [if_neg (by decide : ¬ ("piehole" : String) = "drop")]
    rw [if_neg (by decide : ¬ (("piehole" : String) = "get" ∨ ("piehole" : String) = "take"))]
    rw [if_neg (by decide : ¬ (("piehole" : String) = "give" ∨ ("piehole" : String) = "offer"))]
    rw [if_neg (by decide : ¬ ("piehole" : String) = "feed")]
    rw [if_neg (by decide : ¬ (("piehole" : String) = "kill" ∨ ("piehole" : String) = "attack" ∨
      ("piehole" : String) = "hit" ∨ ("piehole" : String) = "fight"))]
    rw [if_neg (by decide : ¬ (("piehole" : String) = "open" ∨ ("piehole" : String) = "unlock"))]
    rw [if_neg (by decide : ¬ (("piehole" : String) = "swim" ∨ ("piehole" : String) = "dive"))]
    rw [if_neg (by decide : ¬ (("piehole" : String) = "say" ∨ ("piehole" : String) = "speak" ∨
      ("piehole" : String) = "tell"))]
    rw [if_pos (show ("piehole" : String) = PASSWORD from rfl)]

/-- Witness for C6 on concrete worlds. -/
theorem say_password_spec_witness :
    (∃ p, wCastle.cmd_say PASSWORD = some p
        ∧ p.1.obstruction RoomId.Castle Dir.S = some Lock.Free)
    ∧ World.new.cmd_say "hello" = some (World.new, ["You say \"hello\" but nothing happens."])
    ∧ World.new.parse_command ["piehole"] = World.new.cmd_say PASSWORD := by
  obtain ⟨ha, hb, hc⟩ := say_password_spec
  obtain ⟨hsay, hobs⟩ := ha wCastle _ rfl rfl
  exact ⟨⟨_, hsay, hobs (by decide)⟩,
         hb World.new "hello" (by decide) (Or.inl (by decide)),
         hc World.new []⟩

/-- C7: giving the carrot to the parrot while carrying the carrot and with
the parrot present removes one carrot from the inventory and reveals the
password in the narrative, leaving the rooms (hence every exit
obstruction), location, terminal flag and progress flag untouched. -/
theorem give_carrot_parrot_spec :
    ∀ (w : World) (room : Room), w.rooms w.location = some room →
      ObjectList.has w.inventory "carrot" = true →
      ObjectList.has room.objects "parrot" = true →
      w.cmd_give "carrot" "parrot" =
        some ({ w with inventory := (ObjectList.remove w.inventory "carrot").2 },
              ["The parrot happily starts chewing on the carrot.  Every now",
               "and then you hear it say \"piehole\" as it munches away.",
               "I wonder who this parrot belonged to??"])
      ∧ cnt "carrot" (ObjectList.remove w.inventory "carrot").2 + 1
          = cnt "carrot" w.inventory
      ∧ (∀ r d, World.obstruction { w with inventory := (ObjectList.remove w.inventory "carrot").2 } r d
            = w.obstruction r d) := by
  intro w room hr hcar hpar
  refine ⟨?_, ?_, fun r d => rfl⟩
  · unfold World.cmd_give
    rw [if_neg (by decide : ¬ (("carrot" : String) = "" ∨ ("parrot" : String) = ""))]
    rw [hcar]
    rw [if_neg (by decide : ¬ (true = false))]
    rw [hr]
    dsimp only
    rw [hpar]
    rw [if_neg (by decide : ¬ (true = false))]
    rw [if_pos (by decide : ("carrot" : String) = "carrot" ∧ ("parrot" : String) = "parrot")]
    rfl
  · obtain ⟨v2, hrm⟩ := remove_true_of_has _ _ hcar
    have hc := remove_true_cnt w.inventory "carrot" v2 hrm "carrot"
    rw [hrm]
    simp at hc
    dsimp only
    omega

/-- Witness for C7: in the forest with only a carrot, giving it to the
parrot empties the inventory and changes no obstruction. -/
theorem give_carrot_parrot_spec_witness :
    ∃ p, wForestCarrot.cmd_give "carrot" "parrot" = some p
      ∧ p.1.inventory = []
      ∧ (∀ r d, p.1.obstruction r d = wForestCarrot.obstruction r d) := by
  obtain ⟨hgive, hcnt, hobs⟩ := give_carrot_parrot_spec wForestCarrot _ rfl rfl rfl
  exact ⟨_, hgive, rfl, hobs⟩
